import Mathlib

/-!
Verification of the upstream-request log parser (src/lib/log-parser.js).

The source tails an nginx access log, reassembles chunks into lines, matches
each line against the Common/Combined Log Format regex `REGEX_CLF`, applies a
chain of filter rules, and forwards surviving requests to
`stats.logRequest(path, referrer, size, time)`.

Strings are modelled as `List Char`.  Each JavaScript regex used by the source
is hand-compiled to an executable Lean matcher implementing ECMAScript
semantics for that particular pattern; the compilation is justified in the doc
comment of every matcher.  `Date.parse` is implementation-defined in
ECMAScript for the non-ISO datestamps this code feeds it, so it is taken as a
parameter `dp : List Char → Option Int` (`none` = NaN); the ignored-path set
`config.statsIgnorePaths` is taken as a predicate parameter.
-/

namespace LogParser

/-- JS whitespace class `\s` (ECMAScript WhiteSpace ∪ LineTerminator):
TAB, LF, VT, FF, CR, SP, NBSP, U+1680, U+2000..U+200A, U+2028, U+2029,
U+202F, U+205F, U+3000, U+FEFF. -/
def jsSpace (c : Char) : Bool :=
  decide (c = ' ' ∨ c = '\t' ∨ c = '\n' ∨ c.val = 11 ∨ c.val = 12 ∨ c = '\r' ∨
    c.val = 0xA0 ∨ c.val = 0x1680 ∨ (0x2000 ≤ c.val ∧ c.val ≤ 0x200A) ∨
    c.val = 0x2028 ∨ c.val = 0x2029 ∨ c.val = 0x202F ∨ c.val = 0x205F ∨
    c.val = 0x3000 ∨ c.val = 0xFEFF)

/-- ECMAScript LineTerminator: LF, CR, U+2028, U+2029.  `.` (without the `s`
flag) matches exactly the characters that are not line terminators. -/
def isLineTerm (c : Char) : Bool :=
  decide (c = '\n' ∨ c = '\r' ∨ c.val = 0x2028 ∨ c.val = 0x2029)

/-- The `.` character class of a JS regex without the `s` flag. -/
def isDot (c : Char) : Bool := !isLineTerm c

/-- The `\d` character class. -/
def isDigit (c : Char) : Bool := decide ('0' ≤ c ∧ c ≤ '9')

/-- The capture groups of `REGEX_CLF`
`^(\S+) \S+ \S+ \[(.+?)\] "(\S+) (\S+) \S+" (\S+) (\S+)(?: "([^"]*)" "([^"]*)")?$`:
ip, date, method, url, status, bytes, and the optional referrer/useragent pair
(`none` when the optional group did not participate, i.e. `matches[7]` and
`matches[8]` are `undefined`). -/
structure ClfMatches where
  ip : List Char
  date : List Char
  method : List Char
  url : List Char
  status : List Char
  bytes : List Char
  referrer : Option (List Char)
  useragent : Option (List Char)
deriving DecidableEq

/-- Matcher for the regex fragment `(\S+) ` (a capture of one-or-more
non-whitespace characters followed by a literal space).  Because `\S` cannot
match a space, backtracking the greedy `\S+` to a shorter prefix always puts a
non-space character where the literal space is required, so the fragment
matches deterministically: the maximal nonempty `\S` run, then a space. -/
def tokenSp (s : List Char) : Option (List Char × List Char) :=
  let tk := s.takeWhile (fun c => !jsSpace c)
  if tk = [] then none
  else
    match s.dropWhile (fun c => !jsSpace c) with
    | c :: r => if c = ' ' then some (tk, r) else none
    | [] => none

/-- Matcher for the regex fragment `(?: "([^"]*)" "([^"]*)")?$` that follows
the bytes field.  If the input is exhausted the optional group is skipped and
`$` succeeds (groups `undefined`).  Otherwise the group must match to the end:
`[^"]*` is greedy over the class of non-quote characters, so it consumes
exactly up to the next `"` and cannot backtrack usefully; after the second
closing quote, `$` requires the end of input (without the `m` flag `$` matches
only at end of input).  If the group fails with input remaining, skipping the
group leaves `$` facing a nonempty input, so the whole fragment fails. -/
def parseOptRef (s : List Char) :
    Option (Option (List Char) × Option (List Char)) :=
  match s with
  | [] => some (none, none)
  | c1 :: c2 :: r =>
    if c1 = ' ' ∧ c2 = '"' then
      let ref := r.takeWhile (fun c => decide (c ≠ '"'))
      match r.dropWhile (fun c => decide (c ≠ '"')) with
      | d1 :: d2 :: d3 :: r2 =>
        if d1 = '"' ∧ d2 = ' ' ∧ d3 = '"' then
          let ua := r2.takeWhile (fun c => decide (c ≠ '"'))
          match r2.dropWhile (fun c => decide (c ≠ '"')) with
          | [d4] => if d4 = '"' then some (some ref, some ua) else none
          | _ => none
        else none
      | _ => none
    else none
  | _ => none

/-- The fields captured by the part of `REGEX_CLF` that follows `\[(.+?)`,
namely `\] "(\S+) (\S+) \S+" (\S+) (\S+)(?: "([^"]*)" "([^"]*)")?$`
with the leading `\]` already consumed. -/
structure ReqTail where
  method : List Char
  url : List Char
  status : List Char
  bytes : List Char
  referrer : Option (List Char)
  useragent : Option (List Char)
deriving DecidableEq

/-- Matcher for ` "(\S+) (\S+) \S+" (\S+) (\S+)(?: "([^"]*)" "([^"]*)")?$`
(the part of `REGEX_CLF` after the date's closing bracket).  The protocol
fragment `\S+" ` deserves a note: `"` is itself a `\S` character, so the
greedy `\S+` consumes the whole maximal non-whitespace run and backtracks.
The quote must be followed by a literal space, and every character of the run
except the last is followed by another `\S` character, so the only possible
split is: run of length ≥ 2 whose last character is `"`, followed by a space.
All other `(\S+) ` fragments are deterministic as in `tokenSp`; the final
`(\S+)` (bytes) cannot backtrack either, since shortening it puts a non-space
character where `parseOptRef` requires a space or end of input. -/
def parseReqTail (s : List Char) : Option ReqTail :=
  match s with
  | c1 :: c2 :: s1 =>
    if c1 = ' ' ∧ c2 = '"' then
      match tokenSp s1 with
      | none => none
      | some (mth, s2) =>
        match tokenSp s2 with
        | none => none
        | some (url, s3) =>
          let proto := s3.takeWhile (fun c => !jsSpace c)
          if 2 ≤ proto.length ∧ proto.getLast? = some '"' then
            match s3.dropWhile (fun c => !jsSpace c) with
            | c3 :: s4 =>
              if c3 = ' ' then
                match tokenSp s4 with
                | none => none
                | some (st, s5) =>
                  let bts := s5.takeWhile (fun c => !jsSpace c)
                  if bts = [] then none
                  else
                    match parseOptRef (s5.dropWhile (fun c => !jsSpace c)) with
                    | none => none
                    | some (ref, ua) => some ⟨mth, url, st, bts, ref, ua⟩
              else none
            | [] => none
          else none
    else none
  | _ => none

/-- Matcher for the lazy date group `(.+?)\]` of `REGEX_CLF` combined with the
rest of the pattern.  Lazy `.+?` tries the shortest content first: scanning
left to right, at each `]` preceded by at least one character of content the
rest of the pattern (`parseReqTail`) is attempted; on failure the `]` itself
becomes date content (it is a `.` character) and the scan continues.  A line
terminator stops the scan, since `.` cannot match it.  `acc` holds the content
scanned so far, reversed. -/
def findDate (acc s : List Char) : Option (List Char × ReqTail) :=
  match s with
  | [] => none
  | c :: rest =>
    if c = ']' ∧ acc ≠ [] then
      match parseReqTail rest with
      | some rt => some (acc.reverse, rt)
      | none => if isDot c then findDate (c :: acc) rest else none
    else if isDot c then findDate (c :: acc) rest
    else none

/-- `line.match(REGEX_CLF)`: matcher for the whole anchored regex
`^(\S+) \S+ \S+ \[(.+?)\] "(\S+) (\S+) \S+" (\S+) (\S+)(?: "([^"]*)" "([^"]*)")?$`.
The `^` anchor (no `m` flag) pins the match to the start of the string. -/
def clfMatch (line : List Char) : Option ClfMatches :=
  match tokenSp line with
  | none => none
  | some (ip, s1) =>
    match tokenSp s1 with
    | none => none
    | some (_, s2) =>
      match tokenSp s2 with
      | none => none
      | some (_, s3) =>
        match s3 with
        | c :: s4 =>
          if c = '[' then
            match findDate [] s4 with
            | none => none
            | some (date, rt) =>
              some ⟨ip, date, rt.method, rt.url, rt.status, rt.bytes,
                rt.referrer, rt.useragent⟩
          else none
        | [] => none

/-- `url.replace(REGEX_QUERY, '')` with `REGEX_QUERY = /\?.*$/` (first match
only).  Without the `m` flag, `$` matches only at the end of input and `.`
does not match line terminators, so `\?.*$` matches at the first `?` that has
no line terminator anywhere after it, and the replacement deletes from that
`?` to the end.  If every `?` is followed by some line terminator the regex
does not match and the string is returned unchanged. -/
def stripQuery : List Char → List Char
  | [] => []
  | c :: rest =>
    if c = '?' ∧ rest.all (fun d => !isLineTerm d) = true then []
    else c :: stripQuery rest

/-- Backtracking matcher for one `.+?\/` fragment of `REGEX_EXTERNAL`:
consumes at least one `.`-class character (which may itself be `/`) and then a
`/`, handing the remainder to `cont`.  `seen` records whether at least one
content character has been consumed.  Candidates are tried with the shortest
content first, matching the lazy quantifier; for a bare existence test the
order is irrelevant. -/
def segScan (cont : List Char → Bool) : Bool → List Char → Bool
  | _, [] => false
  | seen, c :: rest =>
    if c = '/' then
      if seen then cont rest || segScan cont true rest
      else segScan cont true rest
    else if isDot c then segScan cont true rest
    else false

/-- Matcher for the trailing `.+` of `REGEX_EXTERNAL` (no `$` anchor follows,
so it just requires one `.`-class character). -/
def dotPlus1 : List Char → Bool
  | [] => false
  | c :: _ => isDot c

/-- `REGEX_EXTERNAL.test(s)` with `REGEX_EXTERNAL = /^\/.+?\/.+?\/.+?\/.+/`:
a leading `/`, then three groups of (≥ 1 `.`-class character, then `/`), then
at least one `.`-class character.  The inner characters may themselves be `/`,
since `.` matches `/`. -/
def regexExternalTest (s : List Char) : Bool :=
  match s with
  | c :: rest =>
    if c = '/' then segScan (segScan (segScan dotPlus1 false) false) false rest
    else false
  | [] => false

/-- ASCII-only upper-casing.  ECMAScript `Canonicalize` for a non-`u` regex
upper-cases via `toUpperCase` but never lets a non-ASCII character match an
ASCII one; all literal characters of the `/i` regexes below are ASCII, so two
characters match if and only if they are equal after ASCII upper-casing. -/
def asciiUpper (c : Char) : Char :=
  if 'a' ≤ c ∧ c ≤ 'z' then Char.ofNat (c.toNat - 32) else c

/-- Case-insensitive character match for an `/i` regex with ASCII literals. -/
def ciEq (c p : Char) : Bool := decide (asciiUpper c = asciiUpper p)

/-- Match a literal pattern case-insensitively, returning the remainder. -/
def matchCI : List Char → List Char → Option (List Char)
  | [], s => some s
  | _ :: _, [] => none
  | p :: ps, c :: cs => if ciEq c p then matchCI ps cs else none

/-- Matcher for `^https?:\/\/` (case-insensitive).  The optional `s` is tried
first (greedy); if its branch fails, `://` must match directly, and the two
branches cannot both succeed past `://`, so local fallback is faithful. -/
def schemeRest (s : List Char) : Option (List Char) :=
  match matchCI ("http").toList s with
  | none => none
  | some r =>
    (match r with
     | c :: r2 => if ciEq c 's' then matchCI ("://").toList r2 else none
     | [] => none) <|> matchCI ("://").toList r

/-- Matcher for one `0+:` group: greedy `0+` consumes the maximal run of
zeros; shortening it would put a `0` where `:` is required, so the fragment is
deterministic. -/
def zeroGroup (s : List Char) : Option (List Char) :=
  if s.takeWhile (fun c => decide (c = '0')) = [] then none
  else
    match s.dropWhile (fun c => decide (c = '0')) with
    | c :: r => if c = ':' then some r else none
    | [] => none

/-- Matcher for `(?:0+:){7}`. -/
def zeroGroups7 (s : List Char) : Option (List Char) :=
  zeroGroup s >>= zeroGroup >>= zeroGroup >>= zeroGroup >>= zeroGroup >>=
    zeroGroup >>= zeroGroup

/-- Matcher for a literal `]`. -/
def brkClose : List Char → Option (List Char)
  | c :: r => if c = ']' then some r else none
  | [] => none

/-- Matcher for `\[(?:(?:0+:){7}|::)0*1(?:\/128)?\]`: the bracketed IPv6
loopback alternatives of `REGEX_LOOOPBACK_URL`.  The two alternatives start
with `0` and `:` respectively, so they are disjoint; `0*1` is deterministic
(maximal zeros, then `1`); the optional `/128` is tried first and the two
branches of the option are disjoint at the following `]`. -/
def matchV6 (s : List Char) : Option (List Char) :=
  match s with
  | c :: r =>
    if c = '[' then
      match zeroGroups7 r <|> matchCI ("::").toList r with
      | none => none
      | some r2 =>
        match r2.dropWhile (fun c => decide (c = '0')) with
        | d :: r3 =>
          if d = '1' then
            (match matchCI ("/128").toList r3 with
             | some r4 => brkClose r4
             | none => none) <|> brkClose r3
          else none
        | [] => none
    else none
  | [] => none

/-- Matcher for the host alternation
`(?:localhost|127\.0\.0\.1|\[...\])` of `REGEX_LOOOPBACK_URL`.  The three
alternatives start with `l`, `1`, `[` (after canonicalization), so at most one
can match and the alternation is deterministic. -/
def hostLoopback (s : List Char) : Option (List Char) :=
  matchCI ("localhost").toList s <|> matchCI ("127.0.0.1").toList s <|>
    matchV6 s

/-- Matcher for the tail `(?::\d+)?\/` of `REGEX_LOOOPBACK_URL`: an optional
colon-and-digits port, then a mandatory slash.  If the input starts with `:`
the optional group must be taken (the fallback would require `/` where the `:`
is); `\d+` is greedy-deterministic before the required `/`. -/
def portSlash (s : List Char) : Bool :=
  match s with
  | c :: r =>
    if c = ':' then
      match r.dropWhile isDigit with
      | d :: _ => decide (r.takeWhile isDigit ≠ []) && decide (d = '/')
      | [] => false
    else decide (c = '/')
  | [] => false

/-- `REGEX_LOOOPBACK_URL.test(s)` with
`/^https?:\/\/(?:localhost|127\.0\.0\.1|\[(?:(?:0+:){7}|::)0*1(?:\/128)?\])(?::\d+)?\//i`. -/
def regexLoopbackTest (s : List Char) : Bool :=
  match schemeRest s with
  | none => false
  | some r =>
    match hostLoopback r with
    | none => false
    | some r2 => portSlash r2

/-- `REGEX_RAWGIT.test(s)` with `/^https?:\/\/rawgit(?:hub)?\.com\//i`.
The optional `hub` is tried first; its branch and the skip branch continue
with `.com/` and are disjoint at the next character (`h` vs `.`). -/
def regexRawgitTest (s : List Char) : Bool :=
  match schemeRest s with
  | none => false
  | some r =>
    match matchCI ("rawgit").toList r with
    | none => false
    | some r2 =>
      match matchCI ("hub.com/").toList r2 <|> matchCI (".com/").toList r2 with
      | some _ => true
      | none => false

/-- Value of a list of decimal digits. -/
def digitsVal (ds : List Char) : Nat :=
  ds.foldl (fun a c => a * 10 + (c.toNat - 48)) 0

/-- `parseInt(s, 10) || 0`: skip leading JS whitespace, read an optional sign
and then the longest prefix of decimal digits; no digits gives NaN, which
`|| 0` maps to 0 (as it does an exact 0). -/
def jsParseIntOr0 (s : List Char) : Int :=
  match s.dropWhile jsSpace with
  | [] => 0
  | c :: r =>
    if c = '-' then
      let d := r.takeWhile isDigit
      if d = [] then 0 else -(digitsVal d : Int)
    else if c = '+' then
      let d := r.takeWhile isDigit
      if d = [] then 0 else (digitsVal d : Int)
    else
      let d := (c :: r).takeWhile isDigit
      if d = [] then 0 else (digitsVal d : Int)

/-- `s.replace(REGEX_DATE, '$1 $2')` with `REGEX_DATE = /(\/\d+):(\d+)/`:
the leftmost match of slash-digits-colon-digits has its colon replaced by a
space (each `\d+` is greedy-deterministic before the required `:` and in final
position of the match).  If the fragment starting at a given `/` fails, the
scan resumes one character further right, which the recursive call models. -/
def dateReplace : List Char → List Char
  | [] => []
  | c :: rest =>
    if c = '/' then
      let d1 := rest.takeWhile isDigit
      match rest.dropWhile isDigit with
      | e :: r2 =>
        if d1 ≠ [] ∧ e = ':' then
          let d2 := r2.takeWhile isDigit
          if d2 = [] then c :: dateReplace rest
          else c :: (d1 ++ ' ' :: (d2 ++ r2.dropWhile isDigit))
        else c :: dateReplace rest
      | [] => c :: dateReplace rest
    else c :: dateReplace rest

/-- `Date.parse(matches[2].replace(REGEX_DATE, '$1 $2')) || 0` with
`Date.parse` abstracted as `dp` (`none` = NaN). -/
def jsDateOr0 (dp : List Char → Option Int) (d : List Char) : Int :=
  (dp (dateReplace d)).getD 0

/-- Result of `parseLine` on one line: fall through without a collector call,
raise a `TypeError` to the caller, or call
`stats.logRequest(path, referrer, size, time)`. -/
inductive Outcome where
  | drop : Outcome
  | throwTypeError : Outcome
  | log : List Char → List Char → Int → Int → Outcome
deriving DecidableEq

/-- Lines 128–143 of the source, from `let referrer = matches[7].replace(...)`
to the `stats.logRequest` call.  When the optional referrer group did not
participate, `matches[7]` is `undefined` and `undefined.replace` throws a
`TypeError`. -/
def referrerStage (dp : List Char → Option Int) (path : List Char)
    (m : ClfMatches) : Outcome :=
  match m.referrer with
  | none => Outcome.throwTypeError
  | some raw =>
    let referrer := stripQuery raw
    if regexLoopbackTest referrer then Outcome.drop
    else if regexRawgitTest referrer && !regexExternalTest referrer then
      Outcome.drop
    else Outcome.log path referrer (jsParseIntOr0 m.bytes) (jsDateOr0 dp m.date)

/-- `parseLine(line)` (lines 107–144 of the source): match `REGEX_CLF`, drop
on status `403`, strip the query from the path, drop ignored and non-external
paths, then run the referrer stage.  `ign` is the truthiness of
`config.statsIgnorePaths[path]`. -/
def parseLine (ign : List Char → Bool) (dp : List Char → Option Int)
    (line : List Char) : Outcome :=
  match clfMatch line with
  | none => Outcome.drop
  | some m =>
    if m.status = ("403").toList then Outcome.drop
    else
      let path := stripQuery m.url
      if ign path || !regexExternalTest path then Outcome.drop
      else referrerStage dp path m

/-- `s.split("\n")` of JavaScript: split at every LF; always at least one
(possibly empty) part. -/
def jsSplitNl : List Char → List (List Char)
  | [] => [[]]
  | c :: rest =>
    if c = '\n' then [] :: jsSplitNl rest
    else
      match jsSplitNl rest with
      | [] => [[c]]
      | p :: ps => (c :: p) :: ps

/-- One `readable` callback of the tail stream (lines 176–184): concatenate
overflow and chunk, split on LF, pop the last element into the new overflow,
and emit the preceding elements as complete lines. -/
def splitChunk (overflow chunk : List Char) : List (List Char) × List Char :=
  let parts := jsSplitNl (overflow ++ chunk)
  (parts.dropLast, parts.getLastD [])

/-- Feed a sequence of chunks through the line splitter, returning all emitted
lines in order together with the final overflow. -/
def feedAll : List (List Char) → List Char → List (List Char) × List Char
  | [], ov => ([], ov)
  | ch :: rest, ov =>
    let p := splitChunk ov ch
    let q := feedAll rest p.2
    (p.1 ++ q.1, q.2)

/-- `respawn ? 0 : config.upstreamRequestLogScrollback || 0` (line 155): the
scrollback passed to `tail -F -n` for one launch.  The configured value is an
`Option Nat` (`none` = unset, which `|| 0` maps to 0). -/
def tailScrollBack (cfgScrollback : Option Nat) (respawn : Bool) : Nat :=
  if respawn then 0 else cfgScrollback.getD 0

/-- Scrollback of the n-th launch of the tail subprocess: `init()` calls
`tail(logPath)` (respawn falsy), and every `exit` handler calls
`tail(logPath, true)`, so launch 0 is the only non-respawn launch. -/
def launchScrollBack (cfg : Option Nat) : Nat → Nat
  | 0 => tailScrollBack cfg false
  | _ + 1 => tailScrollBack cfg true

/-- Ignore set with nothing in it. -/
def ign0 : List Char → Bool := fun _ => false

/-- A `Date.parse` stand-in that can parse nothing. -/
def dp0 : List Char → Option Int := fun _ => none

/-- `s.split('/')`, used to talk about the spec's `/`-delimited segments. -/
def slashSegs : List Char → List (List Char)
  | [] => [[]]
  | c :: rest =>
    if c = '/' then [] :: slashSegs rest
    else
      match slashSegs rest with
      | [] => [[c]]
      | p :: ps => (c :: p) :: ps

/-- Number of non-empty `/`-delimited segments of a string. -/
def nonemptySegCount (s : List Char) : Nat :=
  ((slashSegs s).filter (fun l => !l.isEmpty)).length

/-- The spec's concrete accepted scenario line. -/
def lineA : List Char :=
  ("1.2.3.4 - - [10/Oct/2020:13:55:36 -0700] \"GET /user/repo/main/file.js?x=1 HTTP/1.1\" 200 512 \"https://example.com/page\" \"UA\"").toList

/-- Query-stripped path of `lineA`. -/
def pathA : List Char := ("/user/repo/main/file.js").toList

/-- Referrer of `lineA`. -/
def refA : List Char := ("https://example.com/page").toList

/-- The `REGEX_CLF` captures of `lineA`. -/
def mA : ClfMatches :=
  ⟨("1.2.3.4").toList, ("10/Oct/2020:13:55:36 -0700").toList, ("GET").toList,
   ("/user/repo/main/file.js?x=1").toList, ("200").toList, ("512").toList,
   some (("https://example.com/page").toList), some (("UA").toList)⟩

/-- A line whose referrer is a deep (proxied) rawgit.com URL. -/
def lineC1 : List Char :=
  ("1.2.3.4 - - [10/Oct/2020:13:55:36 -0700] \"GET /u/r/b/f.js HTTP/1.1\" 200 512 \"https://rawgit.com/user/repo/branch/file.js\" \"UA\"").toList

/-- A plain CLF line: valid mandatory fields, no quoted referrer/user-agent
pair. -/
def lineC2 : List Char :=
  ("1.2.3.4 - - [10/Oct/2020:13:55:36 -0700] \"GET /a/b/c/d HTTP/1.1\" 200 512").toList

/-- A line whose path `////////a` has a single non-empty `/`-delimited
segment. -/
def lineC3 : List Char :=
  ("1.2.3.4 - - [10/Oct/2020:13:55:36 -0700] \"GET ////////a HTTP/1.1\" 200 512 \"https://example.com/page\" \"UA\"").toList

/-- A line whose referrer is `http://localhost` with no path slash. -/
def lineC4 : List Char :=
  ("1.2.3.4 - - [10/Oct/2020:13:55:36 -0700] \"GET /a/b/c/d HTTP/1.1\" 200 512 \"http://localhost\" \"UA\"").toList

/-- The spec's concrete scenario line with status `403`. -/
def lineC5 : List Char :=
  ("1.2.3.4 - - [10/Oct/2020:13:55:36 -0700] \"GET /user/repo/main/file.js?x=1 HTTP/1.1\" 403 512 \"https://example.com/page\" \"UA\"").toList

/-- A line whose referrer contains `?` followed by a carriage return. -/
def lineC7 : List Char :=
  ("1.2.3.4 - - [10/Oct/2020:13:55:36 -0700] \"GET /a/b/c/d HTTP/1.1\" 200 512 \"x?a\rb\" \"UA\"").toList

/-- A line whose bytes field is `-5`. -/
def lineC8 : List Char :=
  ("1.2.3.4 - - [10/Oct/2020:13:55:36 -0700] \"GET /a/b/c/d HTTP/1.1\" 200 -5 \"https://example.com/page\" \"UA\"").toList

/-- A chunking of the stream `ab\ncd\ne`. -/
def chunks1 : List (List Char) := [("ab\nc").toList, ("d\ne").toList]

/-- A different chunking of the same stream `ab\ncd\ne`. -/
def chunks2 : List (List Char) := [("ab").toList, ("\ncd\ne").toList]

theorem jsSpace_of_lineTerm {c : Char} (h : isLineTerm c = true) :
    jsSpace c = true := by
  simp only [isLineTerm, decide_eq_true_eq] at h
  simp only [jsSpace, decide_eq_true_eq]
  rcases h with h | h | h | h <;> simp [h]

theorem not_lineTerm_of_not_jsSpace {c : Char} (h : jsSpace c = false) :
    isLineTerm c = false := by
  cases hl : isLineTerm c with
  | false => rfl
  | true => rw [jsSpace_of_lineTerm hl] at h; exact absurd h (by simp)

theorem tokenSp_inv {s tk r : List Char} (h : tokenSp s = some (tk, r)) :
    tk = s.takeWhile (fun c => !jsSpace c) ∧ tk ≠ [] := by
  simp only [tokenSp] at h
  split at h
  · exact absurd h (by simp)
  · rename_i hne
    split at h
    · split at h
      · simp only [Option.some.injEq, Prod.mk.injEq] at h
        exact ⟨h.1.symm, h.1 ▸ hne⟩
      · exact absurd h (by simp)
    · exact absurd h (by simp)

theorem parseReqTail_fields {s : List Char} {rt : ReqTail}
    (h : parseReqTail s = some rt) :
    rt.url.all (fun c => !jsSpace c) = true ∧
    rt.bytes.all (fun c => !jsSpace c) = true ∧ rt.bytes ≠ [] := by
  simp only [parseReqTail] at h
  split at h
  · split at h
    · split at h
      · exact absurd h (by simp)
      · rename_i mth s2 htok1
        split at h
        · exact absurd h (by simp)
        · rename_i url s3 htok2
          split at h
          · split at h
            · split at h
              · split at h
                · exact absurd h (by simp)
                · rename_i st s5 htok4
                  split at h
                  · exact absurd h (by simp)
                  · rename_i hbts
                    split at h
                    · exact absurd h (by simp)
                    · rename_i ref ua hopt
                      simp only [Option.some.injEq] at h
                      subst h
                      refine ⟨?_, ?_, ?_⟩
                      · obtain ⟨he, _⟩ := tokenSp_inv htok2
                        subst he
                        simp [List.all_eq_true]
                      · simp [List.all_eq_true]
                      · exact hbts
              · exact absurd h (by simp)
            · exact absurd h (by simp)
          · exact absurd h (by simp)
    · exact absurd h (by simp)
  · exact absurd h (by simp)

theorem findDate_rt {s : List Char} :
    ∀ {acc d : List Char} {rt : ReqTail}, findDate acc s = some (d, rt) →
      ∃ s₂, parseReqTail s₂ = some rt := by
  induction s with
  | nil => intro acc d rt h; simp [findDate] at h
  | cons c rest ih =>
    intro acc d rt h
    simp only [findDate] at h
    split at h
    · split at h
      · rename_i rt' heq
        simp only [Option.some.injEq, Prod.mk.injEq] at h
        exact ⟨rest, h.2 ▸ heq⟩
      · split at h
        · exact ih h
        · exact absurd h (by simp)
    · split at h
      · exact ih h
      · exact absurd h (by simp)

theorem clfMatch_fields {line : List Char} {m : ClfMatches}
    (h : clfMatch line = some m) :
    m.url.all (fun c => !jsSpace c) = true ∧
    m.bytes.all (fun c => !jsSpace c) = true ∧ m.bytes ≠ [] := by
  simp only [clfMatch] at h
  split at h
  · exact absurd h (by simp)
  · rename_i ip s1 _
    split at h
    · exact absurd h (by simp)
    · split at h
      · exact absurd h (by simp)
      · split at h
        · split at h
          · split at h
            · exact absurd h (by simp)
            · rename_i date rt hfd
              obtain ⟨s₂, hs₂⟩ := findDate_rt hfd
              have hf := parseReqTail_fields hs₂
              simp only [Option.some.injEq] at h
              subst h
              exact hf
          · exact absurd h (by simp)
        · exact absurd h (by simp)

theorem stripQuery_no_qm {s : List Char}
    (hs : s.all (fun c => !isLineTerm c) = true) :
    ('?' : Char) ∉ stripQuery s := by
  induction s with
  | nil => simp [stripQuery]
  | cons c rest ih =>
    simp only [List.all_cons, Bool.and_eq_true] at hs
    obtain ⟨_, hrest⟩ := hs
    simp only [stripQuery]
    split
    · simp
    · rename_i hcond
      have hcq : c ≠ '?' := fun hc' => hcond ⟨hc', hrest⟩
      intro hmem
      rcases List.mem_cons.mp hmem with h1 | h1
      · exact hcq h1.symm
      · exact ih hrest h1

theorem all_not_lineTerm_of_all_not_space {s : List Char}
    (h : s.all (fun c => !jsSpace c) = true) :
    s.all (fun c => !isLineTerm c) = true := by
  simp only [List.all_eq_true] at h ⊢
  intro x hx
  have := h x hx
  simp only [Bool.not_eq_true'] at this ⊢
  exact not_lineTerm_of_not_jsSpace this

theorem jsParseIntOr0_nonneg {s : List Char}
    (hs : s.all (fun c => !jsSpace c) = true) (hh : s.head? ≠ some '-') :
    0 ≤ jsParseIntOr0 s := by
  cases s with
  | nil => simp [jsParseIntOr0]
  | cons c r =>
    simp only [List.all_cons, Bool.and_eq_true] at hs
    have hc : jsSpace c = false := by simpa using hs.1
    have hcm : c ≠ '-' := fun he => hh (by simp [he])
    simp only [jsParseIntOr0, List.dropWhile_cons, hc, Bool.false_eq_true,
      if_false, if_neg hcm]
    split <;> split <;> simp [Int.natCast_nonneg]

theorem parseLine_log_inv {ign : List Char → Bool} {dp : List Char → Option Int}
    {line p r : List Char} {sz t : Int}
    (h : parseLine ign dp line = Outcome.log p r sz t) :
    ∃ m raw, clfMatch line = some m ∧ ¬(m.status = ("403").toList) ∧
      p = stripQuery m.url ∧ ign p = false ∧ regexExternalTest p = true ∧
      m.referrer = some raw ∧ r = stripQuery raw ∧
      regexLoopbackTest r = false ∧
      (regexRawgitTest r && !regexExternalTest r) = false ∧
      sz = jsParseIntOr0 m.bytes ∧ t = jsDateOr0 dp m.date := by
  simp only [parseLine] at h
  split at h
  · exact absurd h (by simp)
  · rename_i m hm
    split at h
    · exact absurd h (by simp)
    · rename_i h403
      split at h
      · exact absurd h (by simp)
      · rename_i hpath
        simp only [referrerStage] at h
        split at h
        · exact absurd h (by simp)
        · rename_i raw hraw
          split at h
          · exact absurd h (by simp)
          · rename_i hlb
            split at h
            · exact absurd h (by simp)
            · rename_i hrg
              simp only [Outcome.log.injEq] at h
              obtain ⟨hp, hr, hsz, ht⟩ := h
              subst hp; subst hr; subst hsz; subst ht
              have hpath' : (ign (stripQuery m.url) ||
                  !regexExternalTest (stripQuery m.url)) = false := by
                simpa using hpath
              simp only [Bool.or_eq_false_iff, Bool.not_eq_false'] at hpath'
              refine ⟨m, raw, hm, h403, rfl, hpath'.1, hpath'.2, hraw, rfl,
                ?_, ?_, rfl, rfl⟩
              · simpa using hlb
              · simpa using hrg

theorem segScan_sound {cont : List Char → Bool} :
    ∀ {s : List Char} {seen : Bool}, segScan cont seen s = true →
      ∃ a b, s = a ++ '/' :: b ∧ cont b = true := by
  intro s
  induction s with
  | nil => intro seen h; simp [segScan] at h
  | cons c rest ih =>
    intro seen h
    simp only [segScan] at h
    split at h
    · rename_i hc
      subst hc
      split at h
      · rcases Bool.or_eq_true_iff.mp h with h1 | h1
        · exact ⟨[], rest, rfl, h1⟩
        · obtain ⟨a, b, he, hc⟩ := ih h1
          exact ⟨'/' :: a, b, by simp [he], hc⟩
      · obtain ⟨a, b, he, hc⟩ := ih h
        exact ⟨'/' :: a, b, by simp [he], hc⟩
    · split at h
      · obtain ⟨a, b, he, hc⟩ := ih h
        rename_i hne _
        exact ⟨c :: a, b, by simp [he], hc⟩
      · exact absurd h (by simp)

theorem segScan_of_split {cont : List Char → Bool} :
    ∀ (a : List Char) {b : List Char} {seen : Bool},
      (∀ c ∈ a, isDot c = true) → (seen = true ∨ a ≠ []) → cont b = true →
      segScan cont seen (a ++ '/' :: b) = true := by
  intro a
  induction a with
  | nil =>
    intro b seen _ hse hb
    have : seen = true := by
      rcases hse with h | h
      · exact h
      · exact absurd rfl h
    subst this
    simp [segScan, hb]
  | cons c a' ih =>
    intro b seen hdot _ hb
    have hc : isDot c = true := hdot c (by simp)
    have hrest : ∀ x ∈ a', isDot x = true := fun x hx => hdot x (by simp [hx])
    by_cases hcs : c = '/'
    · subst hcs
      simp only [List.cons_append, segScan, if_pos rfl]
      have hrec := ih hrest (Or.inl rfl) hb
      split
      · simp [hrec]
      · exact hrec
    · simp only [List.cons_append, segScan, if_neg hcs, hc, if_pos rfl]
      exact ih hrest (Or.inl rfl) hb

theorem regexExternalTest_inv {s : List Char} (h : regexExternalTest s = true) :
    s.head? = some '/' ∧ 4 ≤ s.count '/' := by
  cases s with
  | nil => simp [regexExternalTest] at h
  | cons c rest =>
    simp only [regexExternalTest] at h
    split at h
    · rename_i hc
      subst hc
      obtain ⟨a1, b1, e1, h1⟩ := segScan_sound h
      obtain ⟨a2, b2, e2, h2⟩ := segScan_sound h1
      obtain ⟨a3, b3, e3, h3⟩ := segScan_sound h2
      subst e1; subst e2; subst e3
      constructor
      · rfl
      · simp only [List.count_cons_self, List.count_append]
        omega
    · exact absurd h (by simp)

theorem nonemptySegCount_nil : nonemptySegCount [] = 0 := rfl

theorem nonemptySegCount_slash (r : List Char) :
    nonemptySegCount ('/' :: r) = nonemptySegCount r := by
  simp [nonemptySegCount, slashSegs, List.filter]

theorem slashSegs_cons_form {d : Char} (hd : d ≠ '/') (r : List Char) :
    ∃ p ps, slashSegs (d :: r) = (d :: p) :: ps := by
  simp only [slashSegs, if_neg hd]
  split
  · exact ⟨[], [], rfl⟩
  · rename_i p ps _
    exact ⟨p, ps, rfl⟩

theorem nonemptySegCount_single {c : Char} (hc : c ≠ '/') :
    nonemptySegCount [c] = 1 := by
  simp [nonemptySegCount, slashSegs, hc, List.filter]

theorem nonemptySegCount_cons_slash {c : Char} (hc : c ≠ '/') (r : List Char) :
    nonemptySegCount (c :: '/' :: r) = 1 + nonemptySegCount r := by
  simp only [nonemptySegCount, slashSegs, if_neg hc, if_pos rfl]
  simp [List.filter]
  omega

theorem slashSegs_cons_ne {c : Char} (hc : c ≠ '/') (r : List Char) :
    slashSegs (c :: r) = match slashSegs r with
      | [] => [[c]]
      | p :: ps => (c :: p) :: ps := by
  simp only [slashSegs, if_neg hc]

theorem nonemptySegCount_cons_cons {c d : Char} (hc : c ≠ '/') (hd : d ≠ '/')
    (r : List Char) :
    nonemptySegCount (c :: d :: r) = nonemptySegCount (d :: r) := by
  obtain ⟨p, ps, he⟩ := slashSegs_cons_form hd r
  have h1 : slashSegs (c :: d :: r) = (c :: d :: p) :: ps := by
    rw [slashSegs_cons_ne hc, he]
  simp [nonemptySegCount, h1, he, List.filter]

theorem seg_split : ∀ (s : List Char) (k : Nat),
    k + 2 ≤ nonemptySegCount s →
    ∃ a b, s = a ++ '/' :: b ∧ a ≠ [] ∧ k + 1 ≤ nonemptySegCount b := by
  intro s
  induction s with
  | nil =>
    intro k hk
    rw [nonemptySegCount_nil] at hk
    omega
  | cons c rest ih =>
    intro k hk
    by_cases hc : c = '/'
    · subst hc
      rw [nonemptySegCount_slash] at hk
      obtain ⟨a, b, he, ha, hb⟩ := ih k hk
      exact ⟨'/' :: a, b, by simp [he], by simp, hb⟩
    · cases rest with
      | nil =>
        rw [nonemptySegCount_single hc] at hk
        omega
      | cons d rest2 =>
        by_cases hd : d = '/'
        · subst hd
          rw [nonemptySegCount_cons_slash hc] at hk
          exact ⟨[c], rest2, rfl, by simp, by omega⟩
        · rw [nonemptySegCount_cons_cons hc hd] at hk
          obtain ⟨a, b, he, ha, hb⟩ := ih k hk
          exact ⟨c :: a, b, by simp [he], by simp, hb⟩

theorem ne_nil_of_segCount {b : List Char} (h : 1 ≤ nonemptySegCount b) :
    b ≠ [] := by
  rintro rfl
  rw [nonemptySegCount_nil] at h
  omega

theorem extShape_of_segs {s : List Char} (h1 : s.head? = some '/')
    (h2 : ∀ c ∈ s, isDot c = true) (h3 : 4 ≤ nonemptySegCount s) :
    regexExternalTest s = true := by
  cases s with
  | nil => simp at h1
  | cons c rest =>
    have hc : c = '/' := by simpa using h1
    subst hc
    rw [nonemptySegCount_slash] at h3
    obtain ⟨a1, b1, e1, ha1, hb1⟩ := seg_split rest 2 (by omega)
    obtain ⟨a2, b2, e2, ha2, hb2⟩ := seg_split b1 1 (by omega)
    obtain ⟨a3, b3, e3, ha3, hb3⟩ := seg_split b2 0 (by omega)
    obtain ⟨x, b3', hx⟩ := List.exists_cons_of_ne_nil
      (@ne_nil_of_segCount b3 (by omega))
    subst e1; subst e2; subst e3; subst hx
    have hmem : ∀ c ∈ '/' :: (a1 ++ '/' :: (a2 ++ '/' :: (a3 ++ '/' :: x :: b3'))),
        isDot c = true := h2
    simp only [regexExternalTest, if_pos rfl]
    apply segScan_of_split
    · intro y hy
      exact hmem y (by simp [hy])
    · exact Or.inr ha1
    · apply segScan_of_split
      · intro y hy
        exact hmem y (by simp [hy])
      · exact Or.inr ha2
      · apply segScan_of_split
        · intro y hy
          exact hmem y (by simp [hy])
        · exact Or.inr ha3
        · simp only [dotPlus1]
          exact hmem x (by simp)

theorem jsSplitNl_ne_nil (s : List Char) : jsSplitNl s ≠ [] := by
  cases s with
  | nil => simp [jsSplitNl]
  | cons c rest =>
    simp only [jsSplitNl]
    split
    · simp
    · split <;> simp

theorem getLastD_append_cons {α : Type*} (X : List α) (y : α) (ys : List α) :
    ∀ d, (X ++ y :: ys).getLastD d = ys.getLastD y := by
  induction X with
  | nil => intro d; rw [List.nil_append, List.getLastD_cons]
  | cons x X' ih => intro d; rw [List.cons_append, List.getLastD_cons]; exact ih x

theorem jsSplitNl_getLastD_no_nl (s : List Char) :
    ('\n' : Char) ∉ (jsSplitNl s).getLastD [] := by
  induction s with
  | nil => simp [jsSplitNl]
  | cons c rest ih =>
    simp only [jsSplitNl]
    split
    · rw [List.getLastD_cons]; exact ih
    · rename_i hc
      split
      · rename_i heq
        exact absurd heq (jsSplitNl_ne_nil rest)
      · rename_i p ps heq
        rw [List.getLastD_cons]
        rw [heq, List.getLastD_cons] at ih
        cases ps with
        | nil =>
          simp only [List.getLastD] at ih ⊢
          intro hm
          rcases List.mem_cons.mp hm with h1 | h1
          · exact hc h1.symm
          · exact ih h1
        | cons q ps' =>
          rw [List.getLastD_cons] at ih ⊢
          exact ih

theorem jsSplitNl_no_nl {s : List Char} (h : ('\n' : Char) ∉ s) :
    jsSplitNl s = [s] := by
  induction s with
  | nil => rfl
  | cons c rest ih =>
    have hc : c ≠ '\n' := fun e => h (by simp [e])
    have hr : ('\n' : Char) ∉ rest := fun hm => h (List.mem_cons_of_mem _ hm)
    simp [jsSplitNl, hc, ih hr]

theorem jsSplitNl_cons_nl (r : List Char) :
    jsSplitNl ('\n' :: r) = [] :: jsSplitNl r := by
  simp [jsSplitNl]

theorem jsSplitNl_cons_ne {c : Char} (hc : c ≠ '\n') (r : List Char) :
    jsSplitNl (c :: r) = match jsSplitNl r with
      | [] => [[c]]
      | p :: ps => (c :: p) :: ps := by
  simp only [jsSplitNl, if_neg hc]

theorem jsSplitNl_append (a b : List Char) :
    jsSplitNl (a ++ b) = (jsSplitNl a).dropLast ++
      ((jsSplitNl a).getLastD [] ++ (jsSplitNl b).headD []) ::
        (jsSplitNl b).tail := by
  induction a with
  | nil =>
    cases hB : jsSplitNl b with
    | nil => exact absurd hB (jsSplitNl_ne_nil b)
    | cons p ps => simp [jsSplitNl, hB]
  | cons c a' ih =>
    by_cases hc : c = '\n'
    · subst hc
      rw [List.cons_append, jsSplitNl_cons_nl, jsSplitNl_cons_nl, ih]
      cases hA : jsSplitNl a' with
      | nil => exact absurd hA (jsSplitNl_ne_nil a')
      | cons p ps =>
        simp only [List.dropLast_cons₂, List.getLastD_cons, List.cons_append]
    · rw [List.cons_append, jsSplitNl_cons_ne hc, jsSplitNl_cons_ne hc, ih]
      cases hA : jsSplitNl a' with
      | nil => exact absurd hA (jsSplitNl_ne_nil a')
      | cons p ps =>
        cases ps with
        | nil => simp [List.getLastD_cons]
        | cons q ps' => simp [List.dropLast_cons₂, List.getLastD_cons]

theorem splitChunk_append (ov c d : List Char) :
    splitChunk ov (c ++ d) =
      ((splitChunk ov c).1 ++ (splitChunk (splitChunk ov c).2 d).1,
        (splitChunk (splitChunk ov c).2 d).2) := by
  simp only [splitChunk]
  have h1 : ('\n' : Char) ∉ (jsSplitNl (ov ++ c)).getLastD [] :=
    jsSplitNl_getLastD_no_nl _
  have h2 : jsSplitNl ((jsSplitNl (ov ++ c)).getLastD [] ++ d) =
      ((jsSplitNl (ov ++ c)).getLastD [] ++ (jsSplitNl d).headD []) ::
        (jsSplitNl d).tail := by
    rw [jsSplitNl_append, jsSplitNl_no_nl h1]
    simp [List.getLastD_cons]
  have h3 : jsSplitNl (ov ++ (c ++ d)) = (jsSplitNl (ov ++ c)).dropLast ++
      (((jsSplitNl (ov ++ c)).getLastD [] ++ (jsSplitNl d).headD []) ::
        (jsSplitNl d).tail) := by
    rw [← List.append_assoc, jsSplitNl_append]
  rw [h3, h2, List.dropLast_append_cons, getLastD_append_cons,
    List.getLastD_cons]

theorem feedAll_eq : ∀ (cs : List (List Char)) (ov : List Char),
    ('\n' : Char) ∉ ov → feedAll cs ov = splitChunk ov cs.flatten := by
  intro cs
  induction cs with
  | nil =>
    intro ov hov
    simp [feedAll, splitChunk, jsSplitNl_no_nl hov]
  | cons c rest ih =>
    intro ov hov
    have hov2 : ('\n' : Char) ∉ (splitChunk ov c).2 := by
      simp only [splitChunk]
      exact jsSplitNl_getLastD_no_nl _
    simp only [feedAll]
    rw [ih _ hov2, List.flatten_cons, splitChunk_append]

/-- C5: for every input line whose parsed status field is exactly `403`, the
request is never forwarded to the collector (the function returns before any
other field is examined), regardless of the values of all other fields. -/
theorem c5_status403_never_forwarded :
    ∀ (ign : List Char → Bool) (dp : List Char → Option Int) (line : List Char),
    (clfMatch line).map ClfMatches.status = some (("403").toList) →
    parseLine ign dp line = Outcome.drop := by
  intro ign dp line h
  cases e : clfMatch line with
  | none => rw [e] at h; exact absurd h (by simp)
  | some m =>
    rw [e] at h
    have hs : m.status = ("403").toList := by simpa using h
    simp [parseLine, e, hs]

/-- Witness for C5 at the concrete `403` line. -/
theorem c5_witness : parseLine ign0 dp0 lineC5 = Outcome.drop :=
  c5_status403_never_forwarded ign0 dp0 lineC5 (by rfl)

/-- C4 counterexample: the referrer `http://localhost` has loopback host
`localhost` (no port), yet the request is forwarded to the collector: the
loopback regex demands a trailing `/` after host and optional port. -/
theorem c4_counterexample :
    parseLine ign0 dp0 lineC4 =
      Outcome.log (("/a/b/c/d").toList) (("http://localhost").toList) 512 0 :=
  by rfl

/-- C4 amended: a request whose query-stripped referrer matches
`REGEX_LOOOPBACK_URL` — case-insensitive `http(s)://H(:port)?/` with `H` one
of `localhost`, `127.0.0.1`, or a bracketed IPv6 loopback written either as
`::0*1` or as seven zero groups followed by `0*1` (optionally `/128`) — is
never forwarded to the collector.  Loopback referrers lacking the trailing
slash, or using other IPv6 spellings of `::1`, are not caught. -/
theorem c4_amended :
    ∀ (ign : List Char → Bool) (dp : List Char → Option Int)
      (line p r : List Char) (sz t : Int),
    parseLine ign dp line = Outcome.log p r sz t →
    regexLoopbackTest r = false := by
  intro ign dp line p r sz t h
  obtain ⟨m, raw, _, _, _, _, _, _, _, hlb, _, _, _⟩ := parseLine_log_inv h
  exact hlb

/-- Witness for the amended C4 at the concrete forwarded line `lineC4`. -/
theorem c4_amended_witness :
    regexLoopbackTest (("http://localhost").toList) = false :=
  c4_amended ign0 dp0 lineC4 (("/a/b/c/d").toList)
    (("http://localhost").toList) 512 0 (by rfl)

/-- C10: every path handed to the collector begins with `/`, contains at
least four `/` characters, contains no `?`, and is not a member of the ignore
set. -/
theorem c10_collector_invariant :
    ∀ (ign : List Char → Bool) (dp : List Char → Option Int)
      (line p r : List Char) (sz t : Int),
    parseLine ign dp line = Outcome.log p r sz t →
    p.head? = some '/' ∧ 4 ≤ p.count '/' ∧ ('?' : Char) ∉ p ∧
      ign p = false := by
  intro ign dp line p r sz t h
  obtain ⟨m, raw, hm, _, hp, hign, hext, _, _, _, _, _, _⟩ := parseLine_log_inv h
  have hfields := clfMatch_fields hm
  have hurl := all_not_lineTerm_of_all_not_space hfields.1
  obtain ⟨hhead, hcount⟩ := regexExternalTest_inv hext
  refine ⟨hhead, hcount, ?_, hign⟩
  subst hp
  exact stripQuery_no_qm hurl

/-- Witness for C10 at the concrete accepted line `lineA`. -/
theorem c10_witness :
    pathA.head? = some '/' ∧ 4 ≤ pathA.count '/' ∧ ('?' : Char) ∉ pathA ∧
      ign0 pathA = false :=
  c10_collector_invariant ign0 dp0 lineA pathA refA 512 0 (by rfl)

/-- C7 counterexample: an accepted request whose referrer still contains `?`.
In `x?a<CR>b` the `?` is followed by a carriage return, so `\?.*$` does not
match and `.replace` leaves the referrer untouched; the request is forwarded
with the query-bearing referrer. -/
theorem c7_counterexample :
    parseLine ign0 dp0 lineC7 =
      Outcome.log (("/a/b/c/d").toList) (("x?a\rb").toList) 512 0 ∧
    ('?' : Char) ∈ (("x?a\rb").toList) :=
  ⟨by rfl, by decide⟩

/-- C7 amended: both path and referrer handed to the collector are the result
of the query-strip replace applied before the filter rules; the path never
contains `?`; the referrer contains no `?` provided the raw referrer has no
line-terminator character (the strip regex `\?.*$` cannot match across line
terminators). -/
theorem c7_amended :
    ∀ (ign : List Char → Bool) (dp : List Char → Option Int)
      (line p r : List Char) (sz t : Int),
    parseLine ign dp line = Outcome.log p r sz t →
    ∃ m raw, clfMatch line = some m ∧ p = stripQuery m.url ∧
      m.referrer = some raw ∧ r = stripQuery raw ∧ ('?' : Char) ∉ p ∧
      (raw.all (fun c => !isLineTerm c) = true → ('?' : Char) ∉ r) := by
  intro ign dp line p r sz t h
  obtain ⟨m, raw, hm, _, hp, _, _, href, hr, _, _, _, _⟩ := parseLine_log_inv h
  have hfields := clfMatch_fields hm
  refine ⟨m, raw, hm, hp, href, hr, ?_, ?_⟩
  · subst hp
    exact stripQuery_no_qm (all_not_lineTerm_of_all_not_space hfields.1)
  · intro hraw
    subst hr
    exact stripQuery_no_qm hraw

/-- Witness for the amended C7 at the concrete accepted line `lineA`. -/
theorem c7_amended_witness :
    ∃ m raw, clfMatch lineA = some m ∧ pathA = stripQuery m.url ∧
      m.referrer = some raw ∧ refA = stripQuery raw ∧ ('?' : Char) ∉ pathA ∧
      (raw.all (fun c => !isLineTerm c) = true → ('?' : Char) ∉ refA) :=
  c7_amended ign0 dp0 lineA pathA refA 512 0 (by rfl)

/-- C8 counterexample: a bytes field of `-5` is parsed by `parseInt` as the
negative integer −5, which is truthy, so the collector receives a negative
bytes value. -/
theorem c8_counterexample :
    parseLine ign0 dp0 lineC8 =
      Outcome.log (("/a/b/c/d").toList) (("https://example.com/page").toList)
        (-5) 0 ∧ (-5 : Int) < 0 :=
  ⟨by rfl, by decide⟩

/-- C8 amended: the bytes value handed to the collector is
`parseInt(bytes, 10) || 0`; it is non-negative whenever the bytes field does
not begin with a minus sign (in particular non-numeric or `-` placeholder
fields map to 0), but a field of the form `-digits` yields a negative value. -/
theorem c8_amended :
    ∀ (ign : List Char → Bool) (dp : List Char → Option Int)
      (line p r : List Char) (sz t : Int),
    parseLine ign dp line = Outcome.log p r sz t →
    ∃ m, clfMatch line = some m ∧ sz = jsParseIntOr0 m.bytes ∧
      (m.bytes.head? = some '-' ∨ 0 ≤ sz) := by
  intro ign dp line p r sz t h
  obtain ⟨m, raw, hm, _, _, _, _, _, _, _, _, hsz, _⟩ := parseLine_log_inv h
  have hfields := clfMatch_fields hm
  by_cases hb : m.bytes.head? = some '-'
  · exact ⟨m, hm, hsz, Or.inl hb⟩
  · exact ⟨m, hm, hsz, Or.inr (hsz ▸ jsParseIntOr0_nonneg hfields.2.1 hb)⟩

/-- Witness for the amended C8 at the concrete accepted line `lineA`. -/
theorem c8_amended_witness :
    ∃ m, clfMatch lineA = some m ∧ (512 : Int) = jsParseIntOr0 m.bytes ∧
      (m.bytes.head? = some '-' ∨ (0 : Int) ≤ 512) :=
  c8_amended ign0 dp0 lineA pathA refA 512 0 (by rfl)

/-- C3 counterexample: the path `////////a` has a single non-empty
`/`-delimited segment, yet `REGEX_EXTERNAL` matches it (its `.+?` groups may
contain `/`), so the request is forwarded. -/
theorem c3_counterexample :
    parseLine ign0 dp0 lineC3 =
      Outcome.log (("////////a").toList) (("https://example.com/page").toList)
        512 0 ∧
    nonemptySegCount (("////////a").toList) = 1 :=
  ⟨by rfl, by rfl⟩

/-- C3 amended: a parsed request is never forwarded if its query-stripped
path is in the ignore set or fails `REGEX_EXTERNAL` (a leading `/` and three
further groups of at-least-one-character-then-`/`, then at least one
character, where group characters may themselves be `/`); a path passing that
test and not in the ignore set passes this rule (processing continues with
the referrer stage).  Any path starting with `/` that has at least four
non-empty `/`-delimited segments (and no line terminators) passes the test,
but some paths with fewer non-empty segments also pass. -/
theorem c3_amended :
    ∀ (ign : List Char → Bool) (dp : List Char → Option Int)
      (line p r : List Char) (sz t : Int) (s : List Char),
    (parseLine ign dp line = Outcome.log p r sz t →
      ign p = false ∧ regexExternalTest p = true) ∧
    (∀ m, clfMatch line = some m → ¬(m.status = ("403").toList) →
      ign (stripQuery m.url) = false →
      regexExternalTest (stripQuery m.url) = true →
      parseLine ign dp line = referrerStage dp (stripQuery m.url) m) ∧
    (s.head? = some '/' → (∀ c ∈ s, isDot c = true) →
      4 ≤ nonemptySegCount s → regexExternalTest s = true) := by
  intro ign dp line p r sz t s
  refine ⟨?_, ?_, ?_⟩
  · intro h
    obtain ⟨m, raw, _, _, hp, hign, hext, _, _, _, _, _, _⟩ := parseLine_log_inv h
    exact ⟨hign, hext⟩
  · intro m hm h403 hign hext
    simp only [parseLine, hm]
    rw [if_neg h403, if_neg (by simp [hign, hext])]
  · exact fun h1 h2 h3 => extShape_of_segs h1 h2 h3

/-- Witness for the amended C3 at the concrete accepted line `lineA` and the
concrete deep path `/a/b/c/d`. -/
theorem c3_amended_witness :
    (ign0 pathA = false ∧ regexExternalTest pathA = true) ∧
    parseLine ign0 dp0 lineA = referrerStage dp0 (stripQuery mA.url) mA ∧
    regexExternalTest (("/a/b/c/d").toList) = true := by
  have h := c3_amended ign0 dp0 lineA pathA refA 512 0 (("/a/b/c/d").toList)
  exact ⟨h.1 (by rfl), h.2.1 mA (by rfl) (by decide) (by rfl) (by rfl),
    h.2.2 (by rfl) (by decide) (by decide)⟩

/-- C1 (evaluation at the failing input): a request with the deep, proxied
rawgit referrer `https://rawgit.com/user/repo/branch/file.js` is dropped, not
forwarded: line 136 tests `REGEX_EXTERNAL` (anchored `^\/...`) against the
full referrer URL, which starts with `https:` and therefore never matches, so
every rawgit-origin referrer is rejected regardless of its path depth. -/
theorem c1_rawgit_deep_referrer_dropped :
    parseLine ign0 dp0 lineC1 = Outcome.drop := by rfl

/-- C2 (evaluation at the failing input): a well-formed plain CLF line with a
deep path and non-403 status makes `parseLine` throw: the optional referrer
group did not participate, `matches[7]` is `undefined`, and line 128
evaluates `undefined.replace`, raising a `TypeError` to the caller. -/
theorem c2_plain_clf_line_throws :
    parseLine ign0 dp0 lineC2 = Outcome.throwTypeError := by rfl

/-- C6: for every two chunk sequences with equal concatenations, the
overflow-carrying splitter emits the identical ordered sequence of complete
lines; the emitted lines are exactly the fully terminated lines of the
stream, each exactly once and in order (`dropLast` of the split of the whole
stream), and the unterminated trailing content is held in the overflow
buffer (the last element of that split). -/
theorem c6_chunk_boundary_independence :
    ∀ cs1 cs2 : List (List Char), cs1.flatten = cs2.flatten →
      feedAll cs1 [] = feedAll cs2 [] ∧
      (feedAll cs1 []).1 = (jsSplitNl cs1.flatten).dropLast ∧
      (feedAll cs1 []).2 = (jsSplitNl cs1.flatten).getLastD [] := by
  intro cs1 cs2 h
  have h1 := feedAll_eq cs1 [] (by simp)
  have h2 := feedAll_eq cs2 [] (by simp)
  refine ⟨?_, ?_, ?_⟩
  · rw [h1, h2, h]
  · rw [h1]; simp [splitChunk]
  · rw [h1]; simp [splitChunk]

/-- Witness for C6 at two concrete chunkings of the stream `ab\ncd\ne`. -/
theorem c6_witness :
    feedAll chunks1 [] = feedAll chunks2 [] ∧
    (feedAll chunks1 []).1 = (jsSplitNl chunks1.flatten).dropLast ∧
    (feedAll chunks1 []).2 = (jsSplitNl chunks1.flatten).getLastD [] :=
  c6_chunk_boundary_independence chunks1 chunks2 (by rfl)

/-- C9: the tail subprocess is launched with the configured scrollback line
count (defaulted to 0 when unset) on the first launch, and with scrollback
forced to 0 on every subsequent automatic restart. -/
theorem c9_scrollback :
    ∀ (cfg : Option Nat) (n : Nat),
      launchScrollBack cfg 0 = cfg.getD 0 ∧
      launchScrollBack cfg (n + 1) = 0 := by
  intro cfg n
  exact ⟨rfl, rfl⟩

end LogParser
